import Mathlib

/-!
Shallow embedding of src/packages/core/src/behavior.ts (xstate actor
behaviors).  Each behavior variant is embedded as an explicit state record
together with a step function over externally observable steps (supervisor
calls and asynchronous continuations).  Outbound effects (sends to the parent
actor, deliveries to registered receivers/observers, calls into the nested
interpreter) are collected in an effect log.

Conventions:
* plain domain event payloads, actor handles, receiver/observer identities and
  nested machine states are abstracted as natural numbers;
* `parent?.send(...)` is recorded as a `parentSend` effect (the parent is
  assumed present; when it is absent the optional call is a no-op and every
  suppression claim holds trivially);
* JavaScript promise settlement is modelled by a `resolveP`/`settle` step (the
  underlying value settles at most once) and continuation execution by
  explicit microtask steps, so that a `stop` signal may be interleaved between
  settlement and the continuation, exactly as on the host task queue.
-/

namespace XStateBehavior

/-- An incoming domain event: either an SCXML envelope whose data field holds a
plain event, or a plain event.  (`isSCXMLEvent` in behavior.ts line 67
distinguishes the two.) -/
inductive InEvent
  | scxml (data : Nat)
  | plain (data : Nat)
deriving DecidableEq, Repr

/-- Unwrapping performed by the Callback behavior receive handler
(behavior.ts line 67): an SCXML envelope yields its data field, a plain event
is passed through. -/
def InEvent.unwrap : InEvent → Nat
  | .scxml d => d
  | .plain d => d

/-- Modelled from the spec: the payload constructors correspond to the event
helpers of the actions module (not under src/).  Completion of a wrapped
process yields a done-invoke event carrying the source name and payload;
failure yields an error event carrying the source name and reason (spec
section 6).  `forwarded` is a plain value forwarded by the Callback sender
capability, `updateState` the machine synchronization event, `doneEventFwd`
the nested interpreter done event forwarded by the onDone hook, and `raw` an
incoming event re-sent verbatim by the Service behavior. -/
inductive Payload
  | forwarded (data : Nat)
  | doneInvoke (sourceName : String) (data : Nat)
  | errorPayload (sourceName : String) (reason : Nat)
  | updateState (st : Nat)
  | doneEventFwd (data : Nat)
  | raw (e : InEvent)
deriving DecidableEq, Repr

/-- Modelled from the spec: `toSCXMLEvent` (utils module, not under src/) tags
a payload with the sending actor's origin handle (spec section 6: envelope
carrying payload and origin). -/
structure SCXMLMessage where
  payload : Payload
  origin : Nat
deriving DecidableEq, Repr

/-- behavior.ts lines 24-27. -/
structure ActorContext where
  self : Nat
  name : String
deriving DecidableEq, Repr

/-- JavaScript Set.add / insertion-ordered set insert used for the receiver
and observer sets (behavior.ts lines 83, 181). -/
def addUnique (x : Nat) (xs : List Nat) : List Nat :=
  if x ∈ xs then xs else xs ++ [x]

/-- Settlement outcome of a promise-like value. -/
inductive SettleResult
  | resolved (v : Nat)
  | rejected (e : Nat)
deriving DecidableEq, Repr

/-! ## Callback behavior (createCallbackBehavior, behavior.ts lines 57-123) -/

/-- The value returned by the wrapped callback and stored in `dispose`
(behavior.ts line 74): absent/undefined, a disposer function, or a
promise-like (thenable) value. -/
inductive DisposeVal
  | nothing
  | func
  | promiseLike
deriving DecidableEq, Repr

/-- Mutable closure state of createCallbackBehavior: the `canceled` flag
(line 61), the receiver set (line 62), the `dispose` slot (line 63), plus
bookkeeping of whether `start` ran (whether dispose was assigned) and whether
the promise-like dispose value already ran its then-continuation. -/
structure CallbackState where
  canceled : Bool
  receivers : List Nat
  dispose : DisposeVal
  started : Bool
  settled : Bool
deriving DecidableEq, Repr

/-- State at construction (behavior.ts lines 61-63). -/
def cbInit : CallbackState :=
  { canceled := false, receivers := [], dispose := .nothing
    started := false, settled := false }

/-- Externally observable steps driving a Callback behavior: the two lifecycle
signals (the wrapped callback returns `disp` when invoked at start), an
incoming domain event, the wrapped callback invoking its registrar or sender
capability, and the settlement of the promise-like dispose value (which runs
the continuations attached at start, behavior.ts lines 88-105). -/
inductive CbStep
  | signalStart (disp : DisposeVal)
  | signalStop
  | recv (e : InEvent)
  | register (rid : Nat)
  | emit (v : Nat)
  | settle (r : SettleResult)
deriving DecidableEq, Repr

/-- Outbound effects of a Callback behavior: a send to the parent actor, a
delivery of a plain payload to a registered receiver, a call of the disposer
function. -/
inductive CbEffect
  | parentSend (m : SCXMLMessage)
  | deliver (rid : Nat) (data : Nat)
  | disposeCall
deriving DecidableEq, Repr

/-- One step of createCallbackBehavior (behavior.ts lines 65-120).
Note that the then-continuations attached to a promise-like dispose value
(lines 88-105) send to the parent WITHOUT consulting `canceled` — only the
sender capability (lines 75-81) checks the flag — and both continuations set
`canceled := true` after sending. -/
def cbStep (ctx : ActorContext) (s : CallbackState) : CbStep → CallbackState × List CbEffect
  | .signalStart disp =>
      ({ s with started := true, dispose := disp }, [])
  | .signalStop =>
      ({ s with canceled := true },
        if s.dispose = .func then [.disposeCall] else [])
  | .recv e =>
      (s, s.receivers.map (fun rid => .deliver rid e.unwrap))
  | .register rid =>
      if s.started then ({ s with receivers := addUnique rid s.receivers }, [])
      else (s, [])
  | .emit v =>
      if s.started ∧ s.canceled = false then
        (s, [.parentSend ⟨.forwarded v, ctx.self⟩])
      else (s, [])
  | .settle r =>
      if s.started ∧ s.dispose = .promiseLike ∧ s.settled = false then
        ({ s with canceled := true, settled := true },
          match r with
          | .resolved v => [.parentSend ⟨.doneInvoke ctx.name v, ctx.self⟩]
          | .rejected e => [.parentSend ⟨.errorPayload ctx.name e, ctx.self⟩])
      else (s, [])

/-- Run a Callback behavior over a list of steps, collecting effects. -/
def cbRun (ctx : ActorContext) (s : CallbackState) : List CbStep → CallbackState × List CbEffect
  | [] => (s, [])
  | st :: rest =>
      ((cbRun ctx (cbStep ctx s st).fst rest).fst,
        (cbStep ctx s st).snd ++ (cbRun ctx (cbStep ctx s st).fst rest).snd)

/-! ## Promise behavior (createPromiseBehavior, behavior.ts lines 125-193) -/

/-- Mutable closure state of createPromiseBehavior: the `canceled` flag
(line 129), the observer set (line 130), plus promise bookkeeping: how many
continuation pairs have been attached via a start signal (line 141), how many
of them already ran, and the recorded settlement result of the underlying
promise (a promise settles at most once). -/
structure PromiseState where
  canceled : Bool
  observers : List Nat
  attached : Nat
  fired : Nat
  result : Option SettleResult
deriving DecidableEq, Repr

/-- State at construction (behavior.ts lines 129-130). -/
def pmInit : PromiseState :=
  { canceled := false, observers := [], attached := 0, fired := 0, result := none }

/-- Externally observable steps driving a Promise behavior: lifecycle signals,
an incoming event (ignored, line 133), observer registration/unregistration
(lines 180-187), the settlement of the underlying promise, and the host task
queue running one pending then-continuation (a continuation attached at start
runs once, strictly after the promise has settled). -/
inductive PmStep
  | signalStart
  | signalStop
  | recv (e : InEvent)
  | subscribeObs (oid : Nat)
  | unsubscribeObs (oid : Nat)
  | resolveP (r : SettleResult)
  | microtask
deriving DecidableEq, Repr

/-- Outbound effects of a Promise behavior: a send to the parent actor and
observer notifications. -/
inductive PmEffect
  | parentSend (m : SCXMLMessage)
  | obsNext (oid : Nat) (v : Nat)
  | obsError (oid : Nat) (e : Nat)
  | obsComplete (oid : Nat)
deriving DecidableEq, Repr

/-- Body of the then-continuations attached at start (behavior.ts lines
141-170), run when the flag check `!canceled` passes: on success send a
done-invoke event to the parent then notify each observer next then complete;
on failure send an error event then notify each observer error then
complete. -/
def pmContEffects (ctx : ActorContext) (obs : List Nat) : SettleResult → List PmEffect
  | .resolved v =>
      .parentSend ⟨.doneInvoke ctx.name v, ctx.self⟩ ::
        obs.flatMap (fun o => [.obsNext o v, .obsComplete o])
  | .rejected e =>
      .parentSend ⟨.errorPayload ctx.name e, ctx.self⟩ ::
        obs.flatMap (fun o => [.obsError o e, .obsComplete o])

/-- One step of createPromiseBehavior (behavior.ts lines 132-190).  A start
signal attaches one more continuation pair (line 141); a stop signal sets
`canceled` and clears the observer set (lines 172-174); `receive` is a no-op
(line 133); settlement records the result once; a microtask step runs one
still-pending continuation pair, whose body checks `canceled` before any
effect (lines 143, 157). -/
def pmStep (ctx : ActorContext) (s : PromiseState) : PmStep → PromiseState × List PmEffect
  | .signalStart => ({ s with attached := s.attached + 1 }, [])
  | .signalStop => ({ s with canceled := true, observers := [] }, [])
  | .recv _ => (s, [])
  | .subscribeObs oid => ({ s with observers := addUnique oid s.observers }, [])
  | .unsubscribeObs oid => ({ s with observers := s.observers.erase oid }, [])
  | .resolveP r =>
      (if s.result = none then { s with result := some r } else s, [])
  | .microtask =>
      match s.result with
      | some r =>
          if s.fired < s.attached then
            ({ s with fired := s.fired + 1 },
              if s.canceled then [] else pmContEffects ctx s.observers r)
          else (s, [])
      | none => (s, [])

/-- Run a Promise behavior over a list of steps, collecting effects. -/
def pmRun (ctx : ActorContext) (s : PromiseState) : List PmStep → PromiseState × List PmEffect
  | [] => (s, [])
  | st :: rest =>
      ((pmRun ctx (pmStep ctx s st).fst rest).fst,
        (pmStep ctx s st).snd ++ (pmRun ctx (pmStep ctx s st).fst rest).snd)

/-! ## Machine behavior (createMachineBehavior, behavior.ts lines 242-297) -/

/-- Mutable closure state of createMachineBehavior: whether the nested
interpreter handle `service` (line 247, assigned only at start, line 253) is
initialized, and whether the sync state-transition subscription (lines
266-278) is currently registered. -/
structure MachineBState where
  hasService : Bool
  subscribed : Bool
deriving DecidableEq, Repr

/-- State at construction (behavior.ts lines 247-248: both handles are
uninitialized). -/
def mbInit : MachineBState := { hasService := false, subscribed := false }

/-- Externally observable steps driving a Machine behavior: lifecycle signals,
an incoming event (forwarded to the nested interpreter, line 287), a state
transition of the nested interpreter (notifying the sync subscription when
registered), and the nested interpreter reaching its done event (notifying
the onDone hook registered at start, lines 258-264). -/
inductive MbStep
  | signalStart
  | signalStop
  | recv (e : Nat)
  | nestedTransition (st : Nat)
  | nestedDone (d : Nat)
deriving DecidableEq, Repr

/-- Effects of a Machine behavior: operations issued to the nested interpreter
(creation, hook registration, start, stop, unsubscribe, event send) and sends
to the parent actor. -/
inductive MbEffect
  | interpretCreate (id : String)
  | onDoneRegister
  | subscribeRegister
  | serviceStart
  | serviceStop
  | serviceUnsubscribe
  | serviceSend (e : Nat)
  | parentSend (m : SCXMLMessage)
deriving DecidableEq, Repr

/-- One step of createMachineBehavior (behavior.ts lines 250-294), with the
construction option `sync` (line 266).  A start signal creates the nested
interpreter with this actor's name as id, registers the onDone hook, when
`sync` is set registers the state subscription, and only then issues
`service.start()` (line 279).  A stop signal or an incoming event dereferences
the `service` handle (lines 281, 287): before start this handle is
uninitialized and the call fails at runtime, modelled as `Except.error`.  A
nested state transition produces an update event to the parent exactly when
the sync subscription is registered; the nested done event is forwarded to the
parent by the onDone hook. -/
def mbStep (sync : Bool) (ctx : ActorContext) (s : MachineBState) :
    MbStep → Except String (MachineBState × List MbEffect)
  | .signalStart =>
      .ok ({ hasService := true, subscribed := sync },
        [.interpretCreate ctx.name, .onDoneRegister] ++
          (if sync then [.subscribeRegister] else []) ++ [.serviceStart])
  | .signalStop =>
      if s.hasService then
        .ok ({ s with subscribed := false },
          [.serviceStop] ++ (if s.subscribed then [.serviceUnsubscribe] else []))
      else .error "TypeError: service is undefined"
  | .recv e =>
      if s.hasService then .ok (s, [.serviceSend e])
      else .error "TypeError: service is undefined"
  | .nestedTransition st =>
      .ok (s, if s.subscribed then [.parentSend ⟨.updateState st, ctx.self⟩] else [])
  | .nestedDone d =>
      .ok (s, if s.hasService then [.parentSend ⟨.doneEventFwd d, ctx.self⟩] else [])

/-- Run a Machine behavior over a list of steps; a runtime failure aborts the
run, effects observed so far are kept. -/
def mbRun (sync : Bool) (ctx : ActorContext) (s : MachineBState) :
    List MbStep → Except String MachineBState × List MbEffect
  | [] => (.ok s, [])
  | st :: rest =>
      match mbStep sync ctx s st with
      | .error msg => (.error msg, [])
      | .ok sr =>
          ((mbRun sync ctx sr.fst rest).fst, sr.snd ++ (mbRun sync ctx sr.fst rest).snd)

/-- behavior.ts line 291: `subscribe` uses optional chaining on the `service`
handle, returning the nested interpreter's subscription handle when the
service exists and undefined otherwise. -/
def mbSubscribe (s : MachineBState) : Option Unit :=
  if s.hasService then some () else none

/-! ## Service behavior (createServiceBehavior, behavior.ts lines 299-317) -/

/-- The lifecycle signal enumeration (behavior.ts lines 29-32). -/
inductive Signal
  | start
  | stop
deriving DecidableEq, Repr

/-- State of a Service behavior: just the wrapped, already-running interpreter
handle; the variant keeps no mutable bookkeeping. -/
structure ServiceBState where
  serviceId : Nat
deriving DecidableEq, Repr

/-- Effects of a Service behavior: an event sent to the wrapped interpreter,
or a lifecycle operation on it (the latter constructors exist to express that
none is ever issued). -/
inductive SvcEffect
  | serviceSend (m : SCXMLMessage)
  | serviceStartOp
  | serviceStopOp
deriving DecidableEq, Repr

/-- behavior.ts lines 303-306: `receive` re-tags the incoming event with this
actor's origin (toSCXMLEvent with origin = actorContext.self) and delivers it
to the wrapped interpreter, returning the behavior unchanged. -/
def svcReceive (ctx : ActorContext) (e : InEvent) (s : ServiceBState) :
    ServiceBState × List SvcEffect :=
  (s, [.serviceSend ⟨.raw e, ctx.self⟩])

/-- behavior.ts lines 307-309: `receiveSignal` ignores the signal and returns
the behavior unchanged, issuing no operation at all. -/
def svcReceiveSignal (_ctx : ActorContext) (_sig : Signal) (s : ServiceBState) :
    ServiceBState × List SvcEffect :=
  (s, [])

/-! ## Dispatch factory (createBehaviorFrom, behavior.ts lines 338-360) -/

/-- Modelled from the spec: the capability probes isPromiseLike (exposes a
then method), isObservable (exposes a subscribe method), isMachineNode and
isFunction live in the utils module (not under src/); a spawnable entity is
abstracted by which of the four capabilities it exposes. -/
structure SpawnEntity where
  hasThen : Bool
  hasSubscribe : Bool
  isMachineNode : Bool
  isCallable : Bool
deriving DecidableEq, Repr

/-- The five behavior constructors reachable from the dispatch factory
(the Service variant is not produced by it). -/
inductive BehaviorVariant
  | promiseVariant
  | observableVariant
  | machineVariant
  | callbackVariant
deriving DecidableEq, Repr

/-- behavior.ts lines 338-360: probe the entity in source order — promise-like
first, then subscribable, then machine definition, then function — and throw
(modelled as `Except.error`) when none matches (line 359). -/
def createBehaviorFrom (entity : SpawnEntity) : Except String BehaviorVariant :=
  if entity.hasThen then .ok .promiseVariant
  else if entity.hasSubscribe then .ok .observableVariant
  else if entity.isMachineNode then .ok .machineVariant
  else if entity.isCallable then .ok .callbackVariant
  else .error "Unable to create behavior from entity"

/-! ## Helper lemmas -/

theorem addUnique_nodup {x : Nat} {xs : List Nat} (h : xs.Nodup) :
    (addUnique x xs).Nodup := by
  unfold addUnique
  split
  · exact h
  · next hx =>
      simp [List.nodup_append, h, hx]

theorem pmRun_append (ctx : ActorContext) (s : PromiseState) (a b : List PmStep) :
    pmRun ctx s (a ++ b) =
      ((pmRun ctx (pmRun ctx s a).fst b).fst,
        (pmRun ctx s a).snd ++ (pmRun ctx (pmRun ctx s a).fst b).snd) := by
  induction a generalizing s with
  | nil => simp [pmRun]
  | cons st rest ih => simp [pmRun, ih]

theorem pmStep_of_canceled (ctx : ActorContext) (s : PromiseState) (st : PmStep)
    (h : s.canceled = true) :
    (pmStep ctx s st).fst.canceled = true ∧ (pmStep ctx s st).snd = [] := by
  cases st with
  | microtask =>
      cases hres : s.result with
      | none => simp [pmStep, hres, h]
      | some r =>
          simp only [pmStep, hres]
          split <;> simp [h]
  | resolveP r =>
      simp only [pmStep]
      split <;> simp [h]
  | signalStart => simp [pmStep, h]
  | signalStop => simp [pmStep]
  | recv e => simp [pmStep, h]
  | subscribeObs oid => simp [pmStep, h]
  | unsubscribeObs oid => simp [pmStep, h]

theorem pmRun_of_canceled (ctx : ActorContext) (s : PromiseState) (tr : List PmStep)
    (h : s.canceled = true) :
    (pmRun ctx s tr).fst.canceled = true ∧ (pmRun ctx s tr).snd = [] := by
  induction tr generalizing s with
  | nil => exact ⟨h, rfl⟩
  | cons st rest ih =>
      have hs := pmStep_of_canceled ctx s st h
      have := ih (pmStep ctx s st).fst hs.1
      simp [pmRun, hs.2, this.1, this.2]

theorem pmStep_attached (ctx : ActorContext) (s : PromiseState) (st : PmStep) :
    (pmStep ctx s st).fst.attached =
      if st = .signalStart then s.attached + 1 else s.attached := by
  cases st with
  | microtask =>
      cases hres : s.result with
      | none => simp [pmStep, hres]
      | some r =>
          simp only [pmStep, hres]
          split <;> simp
  | resolveP r =>
      simp only [pmStep]
      split <;> simp
  | signalStart => simp [pmStep]
  | signalStop => simp [pmStep]
  | recv e => simp [pmStep]
  | subscribeObs oid => simp [pmStep]
  | unsubscribeObs oid => simp [pmStep]

theorem pmRun_attached (ctx : ActorContext) (s : PromiseState) (tr : List PmStep) :
    (pmRun ctx s tr).fst.attached = s.attached + tr.count .signalStart := by
  induction tr generalizing s with
  | nil => simp [pmRun]
  | cons st rest ih =>
      rw [List.count_cons]
      simp only [pmRun]
      rw [ih, pmStep_attached]
      by_cases h : st = PmStep.signalStart
      · simp [h]
        omega
      · simp [h, Ne.symm h]

theorem pmStep_no_stop_canceled (ctx : ActorContext) (s : PromiseState) (st : PmStep)
    (h : st ≠ .signalStop) :
    (pmStep ctx s st).fst.canceled = s.canceled := by
  cases st with
  | microtask =>
      cases hres : s.result with
      | none => simp [pmStep, hres]
      | some r =>
          simp only [pmStep, hres]
          split <;> simp
  | resolveP r =>
      simp only [pmStep]
      split <;> simp
  | signalStart => simp [pmStep]
  | signalStop => exact absurd rfl h
  | recv e => simp [pmStep]
  | subscribeObs oid => simp [pmStep]
  | unsubscribeObs oid => simp [pmStep]

theorem pmRun_no_stop_canceled (ctx : ActorContext) (s : PromiseState) (tr : List PmStep)
    (h : PmStep.signalStop ∉ tr) :
    (pmRun ctx s tr).fst.canceled = s.canceled := by
  induction tr generalizing s with
  | nil => simp [pmRun]
  | cons st rest ih =>
      simp only [pmRun]
      rw [ih _ (fun hm => h (List.mem_cons_of_mem st hm)),
        pmStep_no_stop_canceled ctx s st (fun he => h (he ▸ List.mem_cons_self st rest))]

theorem pmStep_no_mt_fired (ctx : ActorContext) (s : PromiseState) (st : PmStep)
    (h : st ≠ .microtask) :
    (pmStep ctx s st).fst.fired = s.fired := by
  cases st with
  | microtask => exact absurd rfl h
  | resolveP r =>
      simp only [pmStep]
      split <;> simp
  | signalStart => simp [pmStep]
  | signalStop => simp [pmStep]
  | recv e => simp [pmStep]
  | subscribeObs oid => simp [pmStep]
  | unsubscribeObs oid => simp [pmStep]

theorem pmStep_no_mt_effects (ctx : ActorContext) (s : PromiseState) (st : PmStep)
    (h : st ≠ .microtask) :
    (pmStep ctx s st).snd = [] := by
  cases st with
  | microtask => exact absurd rfl h
  | resolveP r => simp [pmStep]
  | signalStart => simp [pmStep]
  | signalStop => simp [pmStep]
  | recv e => simp [pmStep]
  | subscribeObs oid => simp [pmStep]
  | unsubscribeObs oid => simp [pmStep]

theorem pmRun_no_mt (ctx : ActorContext) (s : PromiseState) (tr : List PmStep)
    (h : PmStep.microtask ∉ tr) :
    (pmRun ctx s tr).fst.fired = s.fired ∧ (pmRun ctx s tr).snd = [] := by
  induction tr generalizing s with
  | nil => simp [pmRun]
  | cons st rest ih =>
      have hhd : st ≠ PmStep.microtask := fun he => h (he ▸ List.mem_cons_self st rest)
      have htl := ih (pmStep ctx s st).fst (fun hm => h (List.mem_cons_of_mem st hm))
      simp only [pmRun]
      rw [htl.1, pmStep_no_mt_fired ctx s st hhd]
      simp [pmStep_no_mt_effects ctx s st hhd, htl.2]

theorem pmStep_result_some (ctx : ActorContext) (s : PromiseState) (st : PmStep)
    (r : SettleResult) (h : s.result = some r) :
    (pmStep ctx s st).fst.result = some r := by
  cases st with
  | microtask =>
      simp only [pmStep, h]
      split <;> simp [h]
  | resolveP r2 =>
      simp only [pmStep]
      split
      · next hc => rw [h] at hc; exact absurd hc (by simp)
      · exact h
  | signalStart => simp [pmStep, h]
  | signalStop => simp [pmStep, h]
  | recv e => simp [pmStep, h]
  | subscribeObs oid => simp [pmStep, h]
  | unsubscribeObs oid => simp [pmStep, h]

theorem pmRun_result_some (ctx : ActorContext) (s : PromiseState) (tr : List PmStep)
    (r : SettleResult) (h : s.result = some r) :
    (pmRun ctx s tr).fst.result = some r := by
  induction tr generalizing s with
  | nil => exact h
  | cons st rest ih =>
      simp only [pmRun]
      exact ih _ (pmStep_result_some ctx s st r h)

theorem pmRun_result_of_mem (ctx : ActorContext) (s : PromiseState) (tr : List PmStep)
    (r0 : SettleResult) (hs : s.result = none)
    (hmem : PmStep.resolveP r0 ∈ tr)
    (hall : ∀ r, PmStep.resolveP r ∈ tr → r = r0) :
    (pmRun ctx s tr).fst.result = some r0 := by
  induction tr generalizing s with
  | nil => exact absurd hmem (List.not_mem_nil _)
  | cons st rest ih =>
      simp only [pmRun]
      cases st with
      | resolveP r =>
          have hr : r = r0 := hall r (List.mem_cons_self _ _)
          subst hr
          have : (pmStep ctx s (PmStep.resolveP r)).fst.result = some r := by
            simp [pmStep, hs]
          exact pmRun_result_some ctx _ rest r this
      | signalStart =>
          refine ih _ (by simp [pmStep, hs]) ?_ ?_
          · rcases List.mem_cons.mp hmem with he | hm
            · exact absurd he (by simp)
            · exact hm
          · exact fun r hr => hall r (List.mem_cons_of_mem _ hr)
      | signalStop =>
          refine ih _ (by simp [pmStep, hs]) ?_ ?_
          · rcases List.mem_cons.mp hmem with he | hm
            · exact absurd he (by simp)
            · exact hm
          · exact fun r hr => hall r (List.mem_cons_of_mem _ hr)
      | recv e =>
          refine ih _ (by simp [pmStep, hs]) ?_ ?_
          · rcases List.mem_cons.mp hmem with he | hm
            · exact absurd he (by simp)
            · exact hm
          · exact fun r hr => hall r (List.mem_cons_of_mem _ hr)
      | subscribeObs oid =>
          refine ih _ (by simp [pmStep, hs]) ?_ ?_
          · rcases List.mem_cons.mp hmem with he | hm
            · exact absurd he (by simp)
            · exact hm
          · exact fun r hr => hall r (List.mem_cons_of_mem _ hr)
      | unsubscribeObs oid =>
          refine ih _ (by simp [pmStep, hs]) ?_ ?_
          · rcases List.mem_cons.mp hmem with he | hm
            · exact absurd he (by simp)
            · exact hm
          · exact fun r hr => hall r (List.mem_cons_of_mem _ hr)
      | microtask =>
          refine ih _ ?_ ?_ ?_
          · simp [pmStep, hs]
          · rcases List.mem_cons.mp hmem with he | hm
            · exact absurd he (by simp)
            · exact hm
          · exact fun r hr => hall r (List.mem_cons_of_mem _ hr)

theorem pmStep_observers_nodup (ctx : ActorContext) (s : PromiseState) (st : PmStep)
    (h : s.observers.Nodup) :
    (pmStep ctx s st).fst.observers.Nodup := by
  cases st with
  | microtask =>
      cases hres : s.result with
      | none => simpa [pmStep, hres] using h
      | some r =>
          simp only [pmStep, hres]
          split <;> simpa using h
  | resolveP r =>
      simp only [pmStep]
      split <;> simpa using h
  | signalStart => simpa [pmStep] using h
  | signalStop => simp [pmStep]
  | recv e => simpa [pmStep] using h
  | subscribeObs oid => simpa [pmStep] using addUnique_nodup h
  | unsubscribeObs oid => simpa [pmStep] using h.erase oid

theorem pmRun_observers_nodup (ctx : ActorContext) (s : PromiseState) (tr : List PmStep)
    (h : s.observers.Nodup) :
    (pmRun ctx s tr).fst.observers.Nodup := by
  induction tr generalizing s with
  | nil => exact h
  | cons st rest ih =>
      simp only [pmRun]
      exact ih _ (pmStep_observers_nodup ctx s st h)

theorem pmRun_saturated (ctx : ActorContext) (s : PromiseState) (tr : List PmStep)
    (hstart : PmStep.signalStart ∉ tr) (hsat : s.attached ≤ s.fired) :
    (pmRun ctx s tr).snd = [] := by
  induction tr generalizing s with
  | nil => simp [pmRun]
  | cons st rest ih =>
      have hhd : st ≠ PmStep.signalStart := fun he => hstart (he ▸ List.mem_cons_self st rest)
      have htl : PmStep.signalStart ∉ rest := fun hm => hstart (List.mem_cons_of_mem st hm)
      have hstep : (pmStep ctx s st).snd = [] ∧
          (pmStep ctx s st).fst.attached ≤ (pmStep ctx s st).fst.fired := by
        cases st with
        | microtask =>
            cases hres : s.result with
            | none => simpa [pmStep, hres] using hsat
            | some r =>
                simp only [pmStep, hres]
                split
                · next hlt => omega
                · simpa using hsat
        | resolveP r =>
            simp only [pmStep]
            split <;> simpa using hsat
        | signalStart => exact absurd rfl hhd
        | signalStop => simpa [pmStep] using hsat
        | recv e => simpa [pmStep] using hsat
        | subscribeObs oid => simpa [pmStep] using hsat
        | unsubscribeObs oid => simpa [pmStep] using hsat
      simp only [pmRun]
      simp [hstep.1, ih _ htl hstep.2]

theorem count_flatMap_once {α : Type} [DecidableEq α] (f : Nat → List α) (x : α)
    (oid : Nat) (hself : (f oid).count x = 1)
    (hother : ∀ o, o ≠ oid → (f o).count x = 0)
    (obs : List Nat) (hnd : obs.Nodup) (hm : oid ∈ obs) :
    (obs.flatMap f).count x = 1 := by
  induction obs with
  | nil => cases hm
  | cons o rest ih =>
      rw [List.flatMap_cons, List.count_append]
      rcases List.mem_cons.mp hm with he | hmem
      · subst he
        rw [hself]
        have hno : oid ∉ rest := (List.nodup_cons.mp hnd).1
        have hz : (rest.flatMap f).count x = 0 := by
          rw [List.count_eq_zero]
          intro hx
          rcases List.mem_flatMap.mp hx with ⟨o2, ho2, hin⟩
          have hne2 : o2 ≠ oid := fun he2 => hno (he2 ▸ ho2)
          have := hother o2 hne2
          rw [List.count_eq_zero] at this
          exact this hin
        rw [hz]
      · have hne : o ≠ oid := fun he2 => (List.nodup_cons.mp hnd).1 (he2 ▸ hmem)
        rw [hother o hne, ih (List.nodup_cons.mp hnd).2 hmem]

theorem count_pair_next (o oid v : Nat) :
    ([PmEffect.obsNext o v, PmEffect.obsComplete o]).count (PmEffect.obsNext oid v) =
      if oid = o then 1 else 0 := by
  by_cases h : oid = o <;> simp [List.count_cons, h]

theorem count_pair_complete (o oid v : Nat) :
    ([PmEffect.obsNext o v, PmEffect.obsComplete o]).count (PmEffect.obsComplete oid) =
      if oid = o then 1 else 0 := by
  by_cases h : oid = o <;> simp [List.count_cons, h]

theorem cbRun_append (ctx : ActorContext) (s : CallbackState) (a b : List CbStep) :
    cbRun ctx s (a ++ b) =
      ((cbRun ctx (cbRun ctx s a).fst b).fst,
        (cbRun ctx s a).snd ++ (cbRun ctx (cbRun ctx s a).fst b).snd) := by
  induction a generalizing s with
  | nil => simp [cbRun]
  | cons st rest ih => simp [cbRun, ih]

theorem cbStep_receivers_nodup (ctx : ActorContext) (s : CallbackState) (st : CbStep)
    (h : s.receivers.Nodup) :
    (cbStep ctx s st).fst.receivers.Nodup := by
  cases st with
  | signalStart disp => simpa [cbStep] using h
  | signalStop => simpa [cbStep] using h
  | recv e => simpa [cbStep] using h
  | register rid =>
      simp only [cbStep]
      split
      · simpa using addUnique_nodup h
      · simpa using h
  | emit v =>
      simp only [cbStep]
      split <;> simpa using h
  | settle r =>
      simp only [cbStep]
      split
      · cases r <;> simpa using h
      · simpa using h

theorem cbRun_receivers_nodup (ctx : ActorContext) (s : CallbackState) (tr : List CbStep)
    (h : s.receivers.Nodup) :
    (cbRun ctx s tr).fst.receivers.Nodup := by
  induction tr generalizing s with
  | nil => exact h
  | cons st rest ih =>
      simp only [cbRun]
      exact ih _ (cbStep_receivers_nodup ctx s st h)

theorem count_map_deliver (rs : List Nat) (hnd : rs.Nodup) (rid : Nat)
    (hm : rid ∈ rs) (x : Nat) :
    (rs.map (fun r => CbEffect.deliver r x)).count (CbEffect.deliver rid x) = 1 := by
  induction rs with
  | nil => cases hm
  | cons r rest ih =>
      rw [List.map_cons, List.count_cons]
      rcases List.mem_cons.mp hm with he | hmem
      · subst he
        have hno : rid ∉ rest := (List.nodup_cons.mp hnd).1
        have hz : (rest.map (fun r => CbEffect.deliver r x)).count (CbEffect.deliver rid x) = 0 := by
          rw [List.count_eq_zero]
          intro hx
          rcases List.mem_map.mp hx with ⟨r2, hr2, he2⟩
          have : r2 = rid := by
            have := he2
            simp at this
            exact this
          exact hno (this ▸ hr2)
        simp [hz]
      · have hne : r ≠ rid := fun he2 => (List.nodup_cons.mp hnd).1 (he2 ▸ hmem)
        simp [ih (List.nodup_cons.mp hnd).2 hmem, hne, Ne.symm hne]

theorem mbRun_no_update (ctx : ActorContext) (s : MachineBState) (tr : List MbStep)
    (h : s.subscribed = false) (st0 orig : Nat) :
    MbEffect.parentSend ⟨.updateState st0, orig⟩ ∉ (mbRun false ctx s tr).snd := by
  induction tr generalizing s with
  | nil => simp [mbRun]
  | cons st rest ih =>
      have hstep : ∀ sr, mbStep false ctx s st = .ok sr →
          sr.fst.subscribed = false ∧
            MbEffect.parentSend ⟨.updateState st0, orig⟩ ∉ sr.snd := by
        intro sr hok
        cases st with
        | signalStart =>
            simp only [mbStep] at hok
            cases hok
            simp
        | signalStop =>
            simp only [mbStep] at hok
            split at hok
            · cases hok
              simp [h]
            · cases hok
        | recv e =>
            simp only [mbStep] at hok
            split at hok
            · cases hok
              simp [h]
            · cases hok
        | nestedTransition st2 =>
            simp only [mbStep, h] at hok
            cases hok
            simp [h]
        | nestedDone d =>
            simp only [mbStep] at hok
            cases hok
            constructor
            · exact h
            · split <;> simp
      simp only [mbRun]
      cases hok : mbStep false ctx s st with
      | error msg => simp
      | ok sr =>
          have := hstep sr hok
          simp only [List.mem_append]
          rintro (hin | hin)
          · exact this.2 hin
          · exact ih sr.fst this.1 hin

/-! ## Claim theorems -/

/-- C1 (divergence at the failing input): for a Callback behavior whose
wrapped function returned a promise-like disposer, after start and stop have
been processed (first conjunct: the cancellation flag is set), the late
resolution of that disposer still sends a done-invoke event to the parent
(second conjunct) — the then-continuations of behavior.ts lines 88-105 do not
consult the canceled flag before sending, so the claimed suppression after
stop does not hold in the code. -/
theorem callbackBehavior_sends_after_stop :
    (cbRun ⟨1, "child"⟩ cbInit
        [.signalStart .promiseLike, .signalStop]).fst.canceled = true ∧
    (cbRun ⟨1, "child"⟩ cbInit
        [.signalStart .promiseLike, .signalStop, .settle (.resolved 0)]).snd =
      [.parentSend ⟨.doneInvoke "child" 0, 1⟩] := by
  constructor <;> rfl

/-- C2: once a stop signal has been processed by the Promise behavior, no
further effect is ever produced from any later steps — in particular, when the
wrapped promise settles afterwards and its continuation runs, no done or error
event reaches the parent and no observer receives any notification. -/
theorem promiseBehavior_stop_suppresses (ctx : ActorContext)
    (pre post : List PmStep) :
    (pmRun ctx (pmRun ctx pmInit (pre ++ [PmStep.signalStop])).fst post).snd = [] := by
  have hc : (pmRun ctx pmInit (pre ++ [PmStep.signalStop])).fst.canceled = true := by
    rw [pmRun_append]
    simp [pmRun, pmStep]
  exact (pmRun_of_canceled ctx _ post hc).2

/-- C3 (counterexample): for the Promise behavior, terminal settlement does
not set the cancellation flag: after a start signal, settlement of the wrapped
promise and the continuation run that delivers the done-invoke event to the
parent, the flag is still false — refuting «set true … on terminal settlement
… whichever happens first» for this variant. -/
theorem promise_settlement_leaves_flag_false :
    (pmRun ⟨1, "child"⟩ pmInit
        [.signalStart, .resolveP (.resolved 0), .microtask]).fst.canceled = false ∧
    (pmRun ⟨1, "child"⟩ pmInit
        [.signalStart, .resolveP (.resolved 0), .microtask]).snd =
      [.parentSend ⟨.doneInvoke "child" 0, 1⟩] := by
  constructor <;> rfl

/-- C3 (amended): both flag-holding variants construct the flag false, the
flag is monotone, and the steps that set it are exactly: for the Callback
variant a stop signal or the settlement continuation of a promise-like
disposer, and for the Promise variant a stop signal only (terminal settlement
of the wrapped promise does not touch the flag). -/
theorem cancellation_flag_discipline :
    cbInit.canceled = false ∧ pmInit.canceled = false ∧
    (∀ ctx s st, ((cbStep ctx s st).fst.canceled = true ↔
        s.canceled = true ∨ st = .signalStop ∨
        (∃ r, st = .settle r ∧ s.started = true ∧
          s.dispose = .promiseLike ∧ s.settled = false))) ∧
    (∀ ctx s st, ((pmStep ctx s st).fst.canceled = true ↔
        s.canceled = true ∨ st = .signalStop)) := by
  refine ⟨rfl, rfl, ?_, ?_⟩
  · intro ctx s st
    cases st with
    | signalStart disp => simp [cbStep]
    | signalStop => simp [cbStep]
    | recv e => simp [cbStep]
    | register rid =>
        simp only [cbStep]
        split <;> simp
    | emit v =>
        simp only [cbStep]
        split <;> simp
    | settle r =>
        simp only [cbStep]
        split
        · next hc => simp [hc.1, hc.2.1, hc.2.2]
        · next hc =>
            simp only [ne_eq, reduceCtorEq, false_or, CbStep.settle.injEq]
            constructor
            · intro h
              exact Or.inl h
            · rintro (h | ⟨r2, hr2, h1, h2, h3⟩)
              · exact h
              · exact absurd ⟨h1, h2, h3⟩ hc
  · intro ctx s st
    cases st with
    | signalStart => simp [pmStep]
    | signalStop => simp [pmStep]
    | recv e => simp [pmStep]
    | subscribeObs oid => simp [pmStep]
    | unsubscribeObs oid => simp [pmStep]
    | resolveP r =>
        simp only [pmStep]
        split <;> simp
    | microtask =>
        cases hres : s.result with
        | none => simp [pmStep, hres]
        | some r =>
            simp only [pmStep, hres]
            split <;> simp

/-- C5: the dispatch factory probes the candidate in the fixed order
deferred-value, subscribable stream, statechart definition, plain function;
in particular any entity exposing both a then method and a subscribe method
yields the Promise variant and never the Observable one. -/
theorem createBehaviorFrom_precedence :
    (∀ b c d, createBehaviorFrom ⟨true, b, c, d⟩ = .ok .promiseVariant) ∧
    (∀ c d, createBehaviorFrom ⟨false, true, c, d⟩ = .ok .observableVariant) ∧
    (∀ d, createBehaviorFrom ⟨false, false, true, d⟩ = .ok .machineVariant) ∧
    createBehaviorFrom ⟨false, false, false, true⟩ = .ok .callbackVariant ∧
    (∀ c d, createBehaviorFrom ⟨true, true, c, d⟩ = .ok .promiseVariant ∧
      createBehaviorFrom ⟨true, true, c, d⟩ ≠ .ok .observableVariant) := by
  refine ⟨?_, ?_, ?_, ?_, ?_⟩ <;> simp [createBehaviorFrom]

/-- C6: receive on a Callback behavior delivers the event's unwrapped plain
payload to every currently registered receiver exactly once each and leaves
the state unchanged, so the rest of the run proceeds exactly as it would from
the pre-receive state: an event arriving while no receiver is registered is
dropped outright — not buffered, and never delivered to receivers registered
later. -/
theorem callbackBehavior_receive_fanout (ctx : ActorContext)
    (tr rest : List CbStep) (e : InEvent) :
    cbRun ctx cbInit (tr ++ CbStep.recv e :: rest) =
      ((cbRun ctx (cbRun ctx cbInit tr).fst rest).fst,
        (cbRun ctx cbInit tr).snd ++
          (cbRun ctx cbInit tr).fst.receivers.map
            (fun rid => CbEffect.deliver rid e.unwrap) ++
          (cbRun ctx (cbRun ctx cbInit tr).fst rest).snd) ∧
    (∀ rid ∈ (cbRun ctx cbInit tr).fst.receivers,
      ((cbRun ctx cbInit tr).fst.receivers.map
          (fun rid2 => CbEffect.deliver rid2 e.unwrap)).count
        (CbEffect.deliver rid e.unwrap) = 1) ∧
    ((cbRun ctx cbInit tr).fst.receivers = [] →
      cbRun ctx cbInit (tr ++ CbStep.recv e :: rest) =
        ((cbRun ctx (cbRun ctx cbInit tr).fst rest).fst,
          (cbRun ctx cbInit tr).snd ++
            (cbRun ctx (cbRun ctx cbInit tr).fst rest).snd)) := by
  have h1 : cbRun ctx cbInit (tr ++ CbStep.recv e :: rest) =
      ((cbRun ctx (cbRun ctx cbInit tr).fst rest).fst,
        (cbRun ctx cbInit tr).snd ++
          (cbRun ctx cbInit tr).fst.receivers.map
            (fun rid => CbEffect.deliver rid e.unwrap) ++
          (cbRun ctx (cbRun ctx cbInit tr).fst rest).snd) := by
    rw [cbRun_append]
    simp [cbRun, cbStep, List.append_assoc]
  refine ⟨h1, ?_, ?_⟩
  · intro rid hm
    have hnd : (cbRun ctx cbInit tr).fst.receivers.Nodup :=
      cbRun_receivers_nodup ctx cbInit tr (by simp [cbInit])
    exact count_map_deliver _ hnd rid hm _
  · intro hempty
    rw [h1, hempty]
    simp

/-- C7: processing a start signal on a Machine behavior issues the nested
interpreter operations in an order with service.start() strictly last: the
onDone completion hook — and, exactly when the sync option is set, the state
subscription — is registered before the interpreter starts; and with sync
unset no update event is ever sent to the parent on any run. -/
theorem machineBehavior_start_order (ctx : ActorContext) :
    (∀ sync : Bool, ∃ pre : List MbEffect,
      (mbRun sync ctx mbInit [MbStep.signalStart]).snd = pre ++ [MbEffect.serviceStart] ∧
      MbEffect.onDoneRegister ∈ pre ∧
      MbEffect.serviceStart ∉ pre ∧
      (sync = true → MbEffect.subscribeRegister ∈ pre)) ∧
    MbEffect.subscribeRegister ∉ (mbRun false ctx mbInit [MbStep.signalStart]).snd ∧
    (∀ (tr : List MbStep) (st0 orig : Nat),
      MbEffect.parentSend ⟨.updateState st0, orig⟩ ∉ (mbRun false ctx mbInit tr).snd) := by
  refine ⟨?_, ?_, ?_⟩
  · intro sync
    cases sync with
    | true =>
        exact ⟨[.interpretCreate ctx.name, .onDoneRegister, .subscribeRegister],
          by simp [mbRun, mbStep], by simp, by simp, fun _ => by simp⟩
    | false =>
        exact ⟨[.interpretCreate ctx.name, .onDoneRegister],
          by simp [mbRun, mbStep], by simp, by simp, fun h => by cases h⟩
  · simp [mbRun, mbStep]
  · intro tr st0 orig
    exact mbRun_no_update ctx mbInit tr rfl st0 orig

/-- C8: a candidate exposing none of the four probed capabilities makes the
dispatch factory fail synchronously with the unsupported-entity error rather
than return a behavior — and that capability-free candidate is the only one on
which it fails. -/
theorem createBehaviorFrom_unsupported :
    createBehaviorFrom ⟨false, false, false, false⟩ =
      .error "Unable to create behavior from entity" ∧
    (∀ e : SpawnEntity,
      createBehaviorFrom e = .error "Unable to create behavior from entity" ↔
        e = ⟨false, false, false, false⟩) := by
  constructor
  · rfl
  · rintro ⟨a, b, c, d⟩
    cases a <;> cases b <;> cases c <;> cases d <;> simp [createBehaviorFrom]

/-- C9: the Service behavior ignores lifecycle signals entirely — state
unchanged and no operation issued to the wrapped interpreter, for start and
stop alike — while receive re-tags the event with this actor's origin and
delivers it to the wrapped interpreter, again leaving the state unchanged. -/
theorem serviceBehavior_signal_noop_receive_retag
    (ctx : ActorContext) (s : ServiceBState) (sig : Signal) (e : InEvent) :
    svcReceiveSignal ctx sig s = (s, []) ∧
    svcReceive ctx e s = (s, [.serviceSend ⟨.raw e, ctx.self⟩]) :=
  ⟨rfl, rfl⟩

/-- C10: before a start signal has been processed the nested-interpreter
handle of a Machine behavior is uninitialized: receive and receiveSignal(stop)
dereference it and fail at runtime, whereas subscribe uses optional chaining
and safely returns the absent handle. -/
theorem machineBehavior_prestart (sync : Bool) (ctx : ActorContext) (e : Nat) :
    mbStep sync ctx mbInit (.recv e) = .error "TypeError: service is undefined" ∧
    mbStep sync ctx mbInit .signalStop = .error "TypeError: service is undefined" ∧
    mbSubscribe mbInit = none := by
  refine ⟨?_, ?_, rfl⟩ <;> simp [mbStep, mbInit]

/-- C4: for a Promise behavior that was started exactly once and never
stopped, when the wrapped value resolves the whole effect log of the run is a
single done-invoke event to the parent followed by, for every observer
registered at settlement time, one next-then-complete notification pair; the
done event occurs exactly once, every such observer receives next exactly once
and complete exactly once, and no observer ever receives an error
notification (hence none receives both next and error). -/
theorem promiseBehavior_exactly_once (ctx : ActorContext)
    (pre post : List PmStep) (v : Nat)
    (hstart : pre.count PmStep.signalStart = 1)
    (hstartpost : PmStep.signalStart ∉ post)
    (hstop1 : PmStep.signalStop ∉ pre)
    (_hstop2 : PmStep.signalStop ∉ post)
    (hmt : PmStep.microtask ∉ pre)
    (hres : PmStep.resolveP (SettleResult.resolved v) ∈ pre)
    (hresall : ∀ r, PmStep.resolveP r ∈ pre → r = SettleResult.resolved v) :
    (pmRun ctx pmInit (pre ++ PmStep.microtask :: post)).snd =
      PmEffect.parentSend ⟨.doneInvoke ctx.name v, ctx.self⟩ ::
        (pmRun ctx pmInit pre).fst.observers.flatMap
          (fun o => [PmEffect.obsNext o v, PmEffect.obsComplete o]) ∧
    (pmRun ctx pmInit (pre ++ PmStep.microtask :: post)).snd.count
      (PmEffect.parentSend ⟨.doneInvoke ctx.name v, ctx.self⟩) = 1 ∧
    (∀ oid ∈ (pmRun ctx pmInit pre).fst.observers,
      (pmRun ctx pmInit (pre ++ PmStep.microtask :: post)).snd.count
          (PmEffect.obsNext oid v) = 1 ∧
      (pmRun ctx pmInit (pre ++ PmStep.microtask :: post)).snd.count
          (PmEffect.obsComplete oid) = 1) ∧
    (∀ oid er, PmEffect.obsError oid er ∉
      (pmRun ctx pmInit (pre ++ PmStep.microtask :: post)).snd) := by
  have hE := pmRun_no_mt ctx pmInit pre hmt
  set s1 := (pmRun ctx pmInit pre).fst with hs1
  have hA : s1.attached = 1 := by
    rw [hs1, pmRun_attached]
    simpa [pmInit] using hstart
  have hC : s1.canceled = false := by
    rw [hs1, pmRun_no_stop_canceled ctx pmInit pre hstop1]
    rfl
  have hF : s1.fired = 0 := by
    rw [hs1, hE.1]
    rfl
  have hR : s1.result = some (SettleResult.resolved v) :=
    pmRun_result_of_mem ctx pmInit pre _ rfl hres hresall
  have hND : s1.observers.Nodup :=
    pmRun_observers_nodup ctx pmInit pre (by simp [pmInit])
  have hstepmt : pmStep ctx s1 PmStep.microtask =
      ({ s1 with fired := s1.fired + 1 },
        pmContEffects ctx s1.observers (SettleResult.resolved v)) := by
    simp [pmStep, hR, hF, hA, hC]
  have hsat : (pmRun ctx { s1 with fired := s1.fired + 1 } post).snd = [] := by
    apply pmRun_saturated ctx _ post hstartpost
    simp [hA, hF]
  have hL : (pmRun ctx pmInit (pre ++ PmStep.microtask :: post)).snd =
      pmContEffects ctx s1.observers (SettleResult.resolved v) := by
    rw [pmRun_append, hE.2]
    simp only [pmRun, List.nil_append, ← hs1]
    rw [hstepmt]
    simp [hsat]
  have hdonemem : PmEffect.parentSend ⟨.doneInvoke ctx.name v, ctx.self⟩ ∉
      s1.observers.flatMap (fun o => [PmEffect.obsNext o v, PmEffect.obsComplete o]) := by
    intro hx
    rcases List.mem_flatMap.mp hx with ⟨o, ho, hin⟩
    simp at hin
  refine ⟨?_, ?_, ?_, ?_⟩
  · rw [hL]
    rfl
  · rw [hL]
    simp only [pmContEffects]
    rw [List.count_cons_self, List.count_eq_zero.mpr hdonemem]
  · intro oid hm
    constructor
    · rw [hL]
      simp only [pmContEffects]
      rw [List.count_cons_of_ne (by simp)]
      refine count_flatMap_once _ _ oid ?_ ?_ s1.observers hND hm
      · rw [count_pair_next]
        simp
      · intro o ho
        rw [count_pair_next]
        simp [Ne.symm ho]
    · rw [hL]
      simp only [pmContEffects]
      rw [List.count_cons_of_ne (by simp)]
      refine count_flatMap_once _ _ oid ?_ ?_ s1.observers hND hm
      · rw [count_pair_complete]
        simp
      · intro o ho
        rw [count_pair_complete]
        simp [Ne.symm ho]
  · intro oid er
    rw [hL]
    simp only [pmContEffects, List.mem_cons, List.mem_flatMap]
    rintro (h | ⟨o, ho, hin⟩)
    · cases h
    · simp at hin

/-- Witness for the C4 theorem: a concrete run with one start, one registered
observer, resolution with value 5, and the continuation microtask — the parent
receives the done-invoke event exactly once. -/
theorem promiseBehavior_exactly_once_witness :
    (pmRun ⟨1, "child"⟩ pmInit
        ([PmStep.signalStart, PmStep.subscribeObs 7,
          PmStep.resolveP (SettleResult.resolved 5)] ++ PmStep.microtask :: [])).snd.count
      (PmEffect.parentSend ⟨.doneInvoke "child" 5, 1⟩) = 1 :=
  (promiseBehavior_exactly_once ⟨1, "child"⟩
      [PmStep.signalStart, PmStep.subscribeObs 7,
        PmStep.resolveP (SettleResult.resolved 5)] [] 5
      (by decide) (by simp) (by decide) (by simp) (by decide) (by decide)
      (fun r hr => by simpa using hr)).2.1

end XStateBehavior
